import Mathlib

/-!
Shallow embedding of the BM25 memory engine of
`src/ai/agents/mcp/memory_agent.py` (module-level helpers and the
`MemoryService` class), together with theorems settling the frozen claims
about it.

External collaborators (the OpenAI language-model service, the embedding
endpoint and the Qdrant vector store) are modelled as oracle parameters:
the engine's own computation — tokenization, token hashing, corpus
statistics, sparse-vector construction, BM25 scoring, score fusion and the
save/search pipelines — is embedded from the source.  Python floats are
idealized as real numbers.
-/

namespace MemoryAgent

open Classical

/-- A character matched by the token pattern `[\w']+` (ASCII fragment of
Python's `\w`, plus the apostrophe). -/
def isTokenChar (c : Char) : Bool :=
  c.isAlphanum || c = '_' || c = '\''

/-- `_tokenize(text)`: maximal runs of token characters, lower-cased
(`[token.lower() for token in TOKEN_PATTERN.findall(text)]`). -/
def _tokenize (text : String) : List String :=
  (((text.toList.map Char.toLower).splitOnP (fun c => !isTokenChar c)).filter
      (fun w => !w.isEmpty)).map List.asString

/-- One step of the reflected CRC-32 used by `zlib.crc32`: fold one bit. -/
def crc32Bit (crc : Nat) : Nat :=
  if crc % 2 = 1 then Nat.xor (crc / 2) 0xEDB88320 else crc / 2

/-- Fold one byte into the CRC-32 state (eight bit steps). -/
def crc32Byte (crc byte : Nat) : Nat :=
  Nat.iterate crc32Bit 8 (Nat.xor crc byte)

/-- `zlib.crc32(data)`: reflected CRC-32 with initial and final value
`0xFFFFFFFF`. -/
def crc32 (bytes : List Nat) : Nat :=
  Nat.xor (bytes.foldl crc32Byte 0xFFFFFFFF) 0xFFFFFFFF

/-- `_token_hash(token) = zlib.crc32(token.encode("utf-8")) & 0xFFFFFFFF`. -/
def _token_hash (token : String) : Nat :=
  Nat.land (crc32 (token.toUTF8.toList.map UInt8.toNat)) 0xFFFFFFFF

/-- The dataclass `MemoryRecord`. -/
structure MemoryRecord where
  id : String
  fact : String
  keywords : List String
  dense_vector : List ℝ
  tokens : List String
  source_text : Option String
  created_at : String

/-- `MemoryRecord.primary_keyword`. -/
def MemoryRecord.primary_keyword (r : MemoryRecord) : Option String :=
  r.keywords.head?

/-- The loop body of `_collect_stats`: skip a record with empty `tokens`,
otherwise bump the document frequency of each token in the record's token
set, the total length, and the valid-record count. -/
def collectStep (acc : (String → ℕ) × ℕ × ℕ) (r : MemoryRecord) :
    (String → ℕ) × ℕ × ℕ :=
  if r.tokens.isEmpty then acc
  else
    (fun t => acc.1 t + (if t ∈ r.tokens then 1 else 0),
      acc.2.1 + r.tokens.length, acc.2.2 + 1)

/-- `MemoryService._collect_stats(records)`: one pass over the records,
skipping those with empty `tokens`; document frequency is updated from the
token *set* of each record, total length and valid-record count are
accumulated; returns `(doc_freq, avgdl, valid_records)`. -/
noncomputable def _collect_stats (records : List MemoryRecord) :
    (String → ℕ) × ℝ × ℕ :=
  let acc := records.foldl collectStep (fun _ => 0, 0, 0)
  (acc.1, if acc.2.2 = 0 then (0 : ℝ) else (acc.2.1 : ℝ) / (acc.2.2 : ℝ),
    acc.2.2)

/-- `BM25_K1 = 1.5`. -/
noncomputable def BM25_K1 : ℝ := 1.5

/-- `BM25_B = 0.75`. -/
noncomputable def BM25_B : ℝ := 0.75

/-- The BM25 inverse document frequency
`idf = math.log((total_docs - df + 0.5) / (df + 0.5) + 1.0)` (Python `int`
subtraction, hence over the reals, not truncated). -/
noncomputable def bm25Idf (total_docs df : ℕ) : ℝ :=
  Real.log (((total_docs : ℝ) - (df : ℝ) + 0.5) / ((df : ℝ) + 0.5) + 1.0)

/-- The BM25 denominator
`freq + BM25_K1 * (1 - BM25_B + BM25_B * (doc_len / avgdl if avgdl else 0))`. -/
noncomputable def bm25Denom (freq : ℕ) (doc_len : ℕ) (avgdl : ℝ) : ℝ :=
  (freq : ℝ) + BM25_K1 *
    (1 - BM25_B + BM25_B * (if avgdl = 0 then 0 else (doc_len : ℝ) / avgdl))

/-- The loop body of `_build_sparse_vector` for one distinct `token` of the
document: look up its in-document frequency and document frequency, skip it
when `df == 0`, `denom == 0` or the weight is non-positive, otherwise emit
the pair `(_token_hash token, weight)`. -/
noncomputable def buildStep (tokens : List String) (doc_freq : String → ℕ)
    (avgdl : ℝ) (total_docs : ℕ) (token : String) (acc : List (ℕ × ℝ)) :
    List (ℕ × ℝ) :=
  let freq := tokens.count token
  let df := doc_freq token
  if df = 0 then acc
  else
    let idf := bm25Idf total_docs df
    let denom := bm25Denom freq tokens.length avgdl
    if denom = 0 then acc
    else
      let weight := idf * (((freq : ℝ) * (BM25_K1 + 1)) / denom)
      if weight ≤ 0 then acc
      else (_token_hash token, weight) :: acc

/-- `MemoryService._build_sparse_vector(tokens, doc_freq, avgdl, total_docs)`.
The loop `for token, freq in tf.items()` runs once per distinct token of the
document (`tf = Counter(tokens)`), modelled as a fold over `tokens.dedup`;
the sparse vector's `(indices, values)` parallel lists are modelled as a
single list of pairs (the spec fixes no order on them). -/
noncomputable def _build_sparse_vector (tokens : List String)
    (doc_freq : String → ℕ) (avgdl : ℝ) (total_docs : ℕ) :
    List (ℕ × ℝ) :=
  if tokens.isEmpty || total_docs = 0 then []
  else tokens.dedup.foldr (buildStep tokens doc_freq avgdl total_docs) []

/-- The loop body of `_bm25_score` for one distinct query `token`: query
tokens with zero document frequency, query tokens absent from the document,
and tokens whose denominator vanishes leave the score unchanged; otherwise
the BM25 term contribution is added. -/
noncomputable def scoreStep (doc_tokens : List String)
    (doc_freq : String → ℕ) (avgdl : ℝ) (total_docs : ℕ) (score : ℝ)
    (token : String) : ℝ :=
  let df := doc_freq token
  if df = 0 then score
  else
    let freq_d := doc_tokens.count token
    if freq_d = 0 then score
    else
      let denom := bm25Denom freq_d doc_tokens.length avgdl
      if denom = 0 then score
      else
        score + bm25Idf total_docs df *
          (((freq_d : ℝ) * (BM25_K1 + 1)) / denom)

/-- `MemoryService._bm25_score(query_counts, record, doc_freq, avgdl,
total_docs)`.  `query_counts = Counter(query_tokens)`; the loop
`for token, freq_q in query_counts.items()` runs once per distinct query
token (`freq_q` is never read), modelled as a fold over
`query_tokens.dedup`. -/
noncomputable def _bm25_score (query_tokens : List String)
    (record : MemoryRecord) (doc_freq : String → ℕ) (avgdl : ℝ)
    (total_docs : ℕ) : ℝ :=
  if record.tokens.isEmpty || total_docs = 0 then 0
  else
    query_tokens.dedup.foldl
      (scoreStep record.tokens doc_freq avgdl total_docs) 0

/-- A Qdrant point as produced by `MemoryRecord.to_point`: id, the named
dense and sparse vectors, and the payload written by
`MemoryRecord.payload()` (the payload's `dense_vector` entry equals the
named dense vector, both being `record.dense_vector`). -/
structure Point where
  id : String
  dense : List ℝ
  sparse : List (ℕ × ℝ)
  fact : String
  keywords : List String
  primary_keyword : Option String
  source_text : Option String
  created_at : String
  tokens : List String

/-- `MemoryRecord.to_point(dense_name, sparse_name, sparse_vector)`
(the vector names only key the dictionaries and are dropped). -/
def MemoryRecord.to_point (r : MemoryRecord) (sparse_vector : List (ℕ × ℝ)) :
    Point :=
  { id := r.id
    dense := r.dense_vector
    sparse := sparse_vector
    fact := r.fact
    keywords := r.keywords
    primary_keyword := r.primary_keyword
    source_text := r.source_text
    created_at := r.created_at
    tokens := r.tokens }

/-- The per-point parsing step of `MemoryService._fetch_existing`, applied to
a point our own `save` stored: skip the point if its payload `fact` is falsy;
take the payload `dense_vector` (always present in our payloads); regenerate
`tokens` from the fact when the stored list is falsy; fall back to `now` when
the stored `created_at` is falsy. -/
def pointToRecord (now : String) (p : Point) : Option MemoryRecord :=
  if p.fact = "" then none
  else some
    { id := p.id
      fact := p.fact
      keywords := p.keywords
      dense_vector := p.dense
      tokens := if p.tokens.isEmpty then _tokenize p.fact else p.tokens
      source_text := p.source_text
      created_at := if p.created_at = "" then now else p.created_at }

/-- Python `str.strip()`: drop leading and trailing whitespace. -/
def pyStrip (s : String) : String :=
  (((s.toList.dropWhile Char.isWhitespace).reverse.dropWhile
      Char.isWhitespace).reverse).asString

/-- One `{fact, keywords}` object of the language model's structured
extraction output. -/
structure RawFact where
  fact : String
  keywords : List String
deriving DecidableEq

/-- Python `sorted(s)` on a set of strings: the distinct elements in
nondecreasing lexicographic order. -/
def sortedStrings (l : List String) : List String :=
  l.dedup.insertionSort (· ≤ ·)

/-- The post-processing loop of `MemoryService._extract_memories`: blank or
whitespace-only input short-circuits to `[]` before the language-model call;
otherwise each returned item has its fact stripped and its keywords
stripped, lower-cased, filtered of blanks, deduplicated and sorted, and
items with an empty fact or no surviving keywords are dropped.  The
language-model response is the `llmFacts` oracle argument. -/
def _extract_memories (text : String) (llmFacts : List RawFact) :
    List RawFact :=
  if pyStrip text = "" then []
  else
    llmFacts.filterMap fun item =>
      let fact := pyStrip item.fact
      let keywords := (item.keywords.filter (fun kw => pyStrip kw ≠ "")).map
        (fun kw => (pyStrip kw).toLower)
      if fact = "" then none
      else if keywords.isEmpty then none
      else some { fact := fact, keywords := sortedStrings keywords }

/-- The value `MemoryService.save` returns, together with the effect on the
vector store: `upserted = none` models "no `client.upsert` call was made",
and `corpus` is the record set backing the store after the call. -/
structure SaveEffect where
  saved : ℕ
  message : Option String
  facts : List String
  keywords : List String
  upserted : Option (List Point)
  corpus : List MemoryRecord

/-- `MemoryService.save(text)`.  Oracles: `embed` for
`self._embed`, `llmFacts` for the raw structured-extraction response,
`newId` for `uuid.uuid4()` (one fresh id per extracted fact) and `now` for
`datetime.now(timezone.utc).isoformat()`.  `existing_records` is what
`self._fetch_existing()` returned. -/
noncomputable def save (embed : String → List ℝ)
    (llmFacts : String → List String → List RawFact) (newId : ℕ → String)
    (now : String) (existing_records : List MemoryRecord) (text : String) :
    SaveEffect :=
  let existing_keywords := sortedStrings (existing_records.flatMap (·.keywords))
  let extracted := _extract_memories text (llmFacts text existing_keywords)
  if extracted.isEmpty then
    { saved := 0, message := some "No factual memories detected.", facts := []
      keywords := [], upserted := none, corpus := existing_records }
  else
    let new_records := extracted.enum.map fun (i, item) =>
      { id := newId i
        fact := item.fact
        keywords := item.keywords
        dense_vector := embed item.fact
        tokens := _tokenize item.fact
        source_text := some text
        created_at := now : MemoryRecord }
    let all_records := existing_records ++ new_records
    let stats := _collect_stats all_records
    let points := all_records.map fun r =>
      r.to_point (_build_sparse_vector r.tokens stats.1 stats.2.1 stats.2.2)
    { saved := new_records.length
      message := none
      facts := new_records.map (·.fact)
      keywords := sortedStrings (new_records.flatMap (·.keywords))
      upserted := some points
      corpus := all_records }

/-- One hit of the grouped dense search, already unwrapped from the client
response shims of `MemoryService.search` (the `getattr`/tuple/dict
fallbacks): the point id, the dense similarity `score`, and the payload
fields the candidate-building loop reads.  `fact`, `tokens`, `dense_vector`
and `created_at` are `Option`s because `payload.get` may return nothing. -/
structure Hit where
  id : String
  score : ℝ
  fact : Option String
  tokens : Option (List String)
  dense_vector : Option (List ℝ)
  keywords : List String
  source_text : Option String
  created_at : Option String

/-- A candidate dictionary built by the hit loop of `MemoryService.search`
(before the `score` key is added). -/
structure Candidate where
  id : String
  fact : String
  keywords : List String
  created_at : String
  source_text : Option String
  dense_score : ℝ
  bm25_score : ℝ

/-- The per-hit body of the candidate-building loop of
`MemoryService.search`: resolve the hit against the freshly fetched corpus
(`record_by_id`), falling back to a lightweight record rebuilt from the
hit's payload (skipping the hit when the payload lacks a usable fact or a
dense vector), then score it with `_bm25_score`. -/
noncomputable def hitToCandidate (now : String) (records : List MemoryRecord)
    (query_tokens : List String) (doc_freq : String → ℕ) (avgdl : ℝ)
    (total_docs : ℕ) (hit : Hit) : Option Candidate :=
  let resolved : Option MemoryRecord :=
    match records.find? (fun r => r.id = hit.id) with
    | some r => some r
    | none =>
      match hit.fact with
      | none => none
      | some f =>
        if f = "" then none
        else
          let tokens := match hit.tokens with
            | some ts => if ts.isEmpty then _tokenize f else ts
            | none => _tokenize f
          match hit.dense_vector with
          | none => none
          | some dv => some
            { id := hit.id
              fact := f
              keywords := hit.keywords
              dense_vector := dv
              tokens := tokens
              source_text := hit.source_text
              created_at := match hit.created_at with
                | some c => if c = "" then now else c
                | none => now }
  match resolved with
  | none => none
  | some record => some
    { id := record.id
      fact := record.fact
      keywords := record.keywords
      created_at := record.created_at
      source_text := record.source_text
      dense_score := hit.score
      bm25_score := _bm25_score query_tokens record doc_freq avgdl total_docs }

/-- The local `_normalize(values, value)` of `MemoryService.search`: min-max
normalization over the candidate scores, `0.5` when the range is degenerate,
`0.0` on an empty list. -/
noncomputable def _normalize (values : List ℝ) (value : ℝ) : ℝ :=
  match values with
  | [] => 0
  | v :: vs =>
    let min_v := vs.foldl min v
    let max_v := vs.foldl max v
    if max_v = min_v then 0.5
    else (value - min_v) / (max_v - min_v)

/-- The fusion loop of `MemoryService.search`: each candidate's `score` key
is set to `0.6 * dense_norm + 0.4 * bm25_norm`, with both channels
normalized over the whole candidate set. -/
noncomputable def scoreCandidates (candidates : List Candidate) :
    List (Candidate × ℝ) :=
  let dense_values := candidates.map (·.dense_score)
  let bm25_values := candidates.map (·.bm25_score)
  candidates.map fun c =>
    (c, 0.6 * _normalize dense_values c.dense_score +
      0.4 * _normalize bm25_values c.bm25_score)

/-- The comparison underlying
`candidates.sort(key=lambda item: item["score"], reverse=True)`:
fused score of the left candidate at least that of the right. -/
def scoreGE (a b : Candidate × ℝ) : Prop := b.2 ≤ a.2

noncomputable instance : DecidableRel scoreGE := fun _ _ => Classical.dec _

instance : IsTotal (Candidate × ℝ) scoreGE := ⟨fun a b => le_total b.2 a.2⟩

instance : IsTrans (Candidate × ℝ) scoreGE :=
  ⟨fun _ _ _ h h' => le_trans h' h⟩

/-- `candidates.sort(key=..., reverse=True)`: stable sort by descending
fused score. -/
noncomputable def rankCandidates (scored : List (Candidate × ℝ)) :
    List (Candidate × ℝ) :=
  scored.insertionSort scoreGE

/-- One element of the list `MemoryService.search` returns. -/
structure SearchHit where
  id : String
  fact : String
  keywords : List String
  created_at : String
  score : ℝ

/-- `MemoryService.search(query, limit, group_size)`.  Oracles: `embed` for
`self._embed`, `searchGroups` for the grouped dense search of the vector
store (given the query vector, `max(1, limit)` and `max(1, group_size)`, it
returns the hits of each group), and `filterIds` for the language-model
relevance gate `self._filter_candidates`.  `records` is what
`self._fetch_existing()` returned. -/
noncomputable def search (embed : String → List ℝ)
    (searchGroups : List ℝ → ℕ → ℕ → List (List Hit))
    (filterIds : String → List (Candidate × ℝ) → List String) (now : String)
    (records : List MemoryRecord) (query : String) (limit : ℕ)
    (group_size : ℕ) : List SearchHit :=
  if records.isEmpty then []
  else
    let dense_query := embed query
    let query_tokens := _tokenize query
    let stats := _collect_stats records
    if query_tokens.isEmpty then []
    else
      let groups := searchGroups dense_query (max 1 limit) (max 1 group_size)
      if groups.isEmpty then []
      else
        let candidates := groups.flatMap fun hits =>
          hits.filterMap
            (hitToCandidate now records query_tokens stats.1 stats.2.1
              stats.2.2)
        if candidates.isEmpty then []
        else
          let scored := scoreCandidates candidates
          let ranked := rankCandidates scored
          let top_candidates := ranked.take limit
          let relevant_ids := filterIds query top_candidates
          let filtered := top_candidates.filter
            (fun c => c.1.id ∈ relevant_ids)
          filtered.map fun c =>
            { id := c.1.id
              fact := c.1.fact
              keywords := c.1.keywords
              created_at := c.1.created_at
              score := c.2 }

/-! ### Spec-side formulas (written from the claims' words, for refinement
comparisons against the embedded code) -/

/-- From the spec: `idf = ln((N - df + 0.5)/(df + 0.5) + 1)`. -/
noncomputable def specIdf (total_docs df : ℕ) : ℝ :=
  Real.log (((total_docs : ℝ) - (df : ℝ) + 0.5) / ((df : ℝ) + 0.5) + 1)

/-- From the spec: `denom = f + k1*(1 - b + b*(doclen/avgdl))` with
`k1 = 1.5`, `b = 0.75` (real division, so `doclen/avgdl` is `0` when
`avgdl = 0`, as in the code's `doc_len / avgdl if avgdl else 0`). -/
noncomputable def specDenom (f doclen : ℕ) (avgdl : ℝ) : ℝ :=
  (f : ℝ) + 1.5 * (1 - 0.75 + 0.75 * ((doclen : ℝ) / avgdl))

/-- From the spec: `weight = idf * f*(k1+1)/denom` for a token with
in-document frequency `f` in the given document. -/
noncomputable def specWeight (tokens : List String) (doc_freq : String → ℕ)
    (avgdl : ℝ) (total_docs : ℕ) (token : String) : ℝ :=
  specIdf total_docs (doc_freq token) *
    ((tokens.count token : ℝ) * (1.5 + 1) /
      specDenom (tokens.count token) tokens.length avgdl)

/-- From the spec (query side): the BM25 contribution of one query token —
zero when the token is absent from the corpus (`df = 0`), absent from the
document, or its denominator vanishes, else `idf(t) * freq_in_doc(t)*(k1+1)/denom`. -/
noncomputable def specTermScore (doc_tokens : List String)
    (doc_freq : String → ℕ) (avgdl : ℝ) (total_docs : ℕ) (token : String) :
    ℝ :=
  if doc_freq token = 0 ∨ doc_tokens.count token = 0 ∨
      specDenom (doc_tokens.count token) doc_tokens.length avgdl = 0 then 0
  else
    specIdf total_docs (doc_freq token) *
      ((doc_tokens.count token : ℝ) * (1.5 + 1) /
        specDenom (doc_tokens.count token) doc_tokens.length avgdl)

/-! ### Concrete data used to instantiate the theorems below -/

/-- A small concrete record (one token `"s"`). -/
def exRecord : MemoryRecord :=
  { id := "r0", fact := "s", keywords := ["k"], dense_vector := [1]
    tokens := ["s"], source_text := none, created_at := "c" }

/-- A concrete document-frequency table: `"t"` occurs in 10 documents,
`"s"` in 1, everything else in none. -/
def exDocFreq : String → ℕ :=
  fun w => if w = "t" then 10 else if w = "s" then 1 else 0

/-- A concrete record whose tokens contain `"s"` five times and `"t"`
once. -/
def exRecordBefore : MemoryRecord :=
  { id := "r1", fact := "doc", keywords := ["k"], dense_vector := [1]
    tokens := ["s", "s", "s", "s", "s", "t"], source_text := none
    created_at := "c" }

/-- `exRecordBefore` with one more occurrence of the token `"t"`. -/
def exRecordAfter : MemoryRecord :=
  { id := "r1", fact := "doc", keywords := ["k"], dense_vector := [1]
    tokens := ["s", "s", "s", "s", "s", "t", "t"], source_text := none
    created_at := "c" }

/-- A concrete search candidate. -/
noncomputable def candA : Candidate :=
  { id := "a", fact := "fa", keywords := ["k"], created_at := "c"
    source_text := none, dense_score := 1, bm25_score := 0 }

/-! ### C2: empty queries and empty corpora -/

/-- C2: for every corpus state, a query whose tokenization is empty makes
`search` return the empty list (and the empty string indeed tokenizes to
nothing); for every query, `search` returns the empty list when the fetched
corpus has no records. -/
theorem search_empty_query_or_corpus (embed : String → List ℝ)
    (searchGroups : List ℝ → ℕ → ℕ → List (List Hit))
    (filterIds : String → List (Candidate × ℝ) → List String) (now : String)
    (records : List MemoryRecord) (query : String) (limit group_size : ℕ) :
    (_tokenize query = [] →
      search embed searchGroups filterIds now records query limit
        group_size = []) ∧
    (records = [] →
      search embed searchGroups filterIds now records query limit
        group_size = []) ∧
    _tokenize "" = [] := by
  refine ⟨fun h => ?_, fun h => ?_, rfl⟩
  · unfold search
    split
    · rfl
    · simp [h]
  · subst h
    simp [search]

/-- Witness for C2 at a one-record corpus with the query `"?!"` (which
tokenizes to nothing) and at an empty corpus. -/
theorem search_empty_query_or_corpus_witness :
    search (fun _ => []) (fun _ _ _ => []) (fun _ _ => []) "now" [exRecord]
        "?!" 6 3 = [] ∧
    search (fun _ => []) (fun _ _ _ => []) (fun _ _ => []) "now" [] "query"
        6 3 = [] :=
  ⟨(search_empty_query_or_corpus _ _ _ _ _ _ _ _).1 (by decide),
   (search_empty_query_or_corpus _ _ _ _ _ _ _ _).2.1 rfl⟩

/-! ### C3: extraction yielding nothing makes `save` a no-op -/

/-- C3: blank or whitespace-only text always extracts to nothing, and
whenever extraction yields no facts `save` returns
`{saved: 0, message: "No factual memories detected."}`, performs no upsert
and leaves the corpus unchanged. -/
theorem save_no_facts (embed : String → List ℝ)
    (llmFacts : String → List String → List RawFact) (newId : ℕ → String)
    (now : String) (existing_records : List MemoryRecord) (text : String) :
    (∀ resp, pyStrip text = "" → _extract_memories text resp = []) ∧
    (_extract_memories text
        (llmFacts text
          (sortedStrings (existing_records.flatMap (·.keywords)))) = [] →
      save embed llmFacts newId now existing_records text =
        { saved := 0, message := some "No factual memories detected."
          facts := [], keywords := [], upserted := none
          corpus := existing_records }) := by
  constructor
  · intro resp h
    simp [_extract_memories, h]
  · intro h
    unfold save
    simp [h]

/-- Witness for C3 on whitespace-only input text. -/
theorem save_no_facts_witness :
    _extract_memories "   " [] = [] ∧
    save (fun _ => []) (fun _ _ => []) (fun _ => "id") "now" [exRecord]
        "   " =
      { saved := 0, message := some "No factual memories detected."
        facts := [], keywords := [], upserted := none
        corpus := [exRecord] } :=
  ⟨(save_no_facts (fun _ => []) (fun _ _ => []) (fun _ => "id") "now"
      [exRecord] "   ").1 [] (by decide),
   (save_no_facts (fun _ => []) (fun _ _ => []) (fun _ => "id") "now"
      [exRecord] "   ").2 (by decide)⟩

/-! ### C10: `search` returns at most `limit` results -/

/-- C10: for every limit, corpus state, query and oracle behavior, the list
`search` returns has length at most `limit` (so `limit = 0` yields the
empty list), even though the grouped dense search itself is issued with a
group count of `max 1 limit`. -/
theorem search_length_le_limit (embed : String → List ℝ)
    (searchGroups : List ℝ → ℕ → ℕ → List (List Hit))
    (filterIds : String → List (Candidate × ℝ) → List String) (now : String)
    (records : List MemoryRecord) (query : String) (limit group_size : ℕ) :
    (search embed searchGroups filterIds now records query limit
      group_size).length ≤ limit := by
  unfold search
  split
  · exact Nat.zero_le _
  · dsimp only
    split
    · exact Nat.zero_le _
    · split
      · exact Nat.zero_le _
      · split
        · exact Nat.zero_le _
        · rw [List.length_map]
          refine le_trans (List.length_filter_le _ _) ?_
          rw [List.length_take]
          exact min_le_left _ _

/-! ### C9: corpus statistics -/

/-- The document-frequency component of the stats fold: each valid record
containing `t` contributes exactly one. -/
theorem collectFold_df (records : List MemoryRecord)
    (acc : (String → ℕ) × ℕ × ℕ) (t : String) :
    (records.foldl collectStep acc).1 t =
      acc.1 t + (records.filter (fun r => !r.tokens.isEmpty)).countP
        (fun r => decide (t ∈ r.tokens)) := by
  induction records generalizing acc with
  | nil => simp
  | cons r rs ih =>
    rw [List.foldl_cons, ih]
    by_cases h : r.tokens.isEmpty
    · simp [collectStep, h, List.filter_cons]
    · simp only [collectStep, h, if_false, List.filter_cons, Bool.not_false,
        if_true, List.countP_cons]
      by_cases ht : t ∈ r.tokens
      · simp [ht]; omega
      · simp [ht]

/-- The total-length component of the stats fold. -/
theorem collectFold_len (records : List MemoryRecord)
    (acc : (String → ℕ) × ℕ × ℕ) :
    (records.foldl collectStep acc).2.1 =
      acc.2.1 + ((records.filter (fun r => !r.tokens.isEmpty)).map
        (fun r => r.tokens.length)).sum := by
  induction records generalizing acc with
  | nil => simp
  | cons r rs ih =>
    rw [List.foldl_cons, ih]
    by_cases h : r.tokens.isEmpty
    · simp [collectStep, h, List.filter_cons]
    · simp [collectStep, h, List.filter_cons]
      omega

/-- The valid-record-count component of the stats fold. -/
theorem collectFold_count (records : List MemoryRecord)
    (acc : (String → ℕ) × ℕ × ℕ) :
    (records.foldl collectStep acc).2.2 =
      acc.2.2 + (records.filter (fun r => !r.tokens.isEmpty)).length := by
  induction records generalizing acc with
  | nil => simp
  | cons r rs ih =>
    rw [List.foldl_cons, ih]
    by_cases h : r.tokens.isEmpty
    · simp [collectStep, h, List.filter_cons]
    · simp [collectStep, h, List.filter_cons]
      omega

/-- C9: `_collect_stats` counts only records with non-empty tokens;
`doc_freq t` is the number of valid records whose token set contains `t`
(set semantics); `avg_len` is the mean token-sequence length over the valid
records and `0.0` when there are none. -/
theorem collect_stats_spec (records : List MemoryRecord) (t : String) :
    (_collect_stats records).1 t =
      (records.filter (fun r => !r.tokens.isEmpty)).countP
        (fun r => decide (t ∈ r.tokens)) ∧
    (_collect_stats records).2.2 =
      (records.filter (fun r => !r.tokens.isEmpty)).length ∧
    (_collect_stats records).2.1 =
      (if (records.filter (fun r => !r.tokens.isEmpty)).length = 0 then (0 : ℝ)
       else ((((records.filter (fun r => !r.tokens.isEmpty)).map
            (fun r => r.tokens.length)).sum : ℕ) : ℝ) /
          (((records.filter (fun r => !r.tokens.isEmpty)).length : ℕ) : ℝ)) := by
  refine ⟨?_, ?_, ?_⟩
  · unfold _collect_stats
    rw [collectFold_df]
    simp
  · unfold _collect_stats
    rw [collectFold_count]
    simp
  · unfold _collect_stats
    dsimp only
    rw [collectFold_count, collectFold_len]
    simp

/-! ### C5: the stored sparse vector -/

/-- The code's guarded denominator equals the spec's formula: when
`avgdl = 0` the code substitutes `0` for `doc_len / avgdl`, which is also
the value of real division by zero. -/
theorem bm25Denom_eq_specDenom (f doclen : ℕ) (avgdl : ℝ) :
    bm25Denom f doclen avgdl = specDenom f doclen avgdl := by
  unfold bm25Denom specDenom BM25_K1 BM25_B
  by_cases h : avgdl = 0
  · simp [h]
  · norm_num [h]

/-- The code's idf equals the spec's formula. -/
theorem bm25Idf_eq_specIdf (total_docs df : ℕ) :
    bm25Idf total_docs df = specIdf total_docs df := by
  unfold bm25Idf specIdf
  norm_num

/-- `BM25_K1 + 1` is the `k1 + 1 = 2.5` of the spec's weight formula. -/
theorem BM25_K1_add_one : BM25_K1 + 1 = (1.5 : ℝ) + 1 := rfl

/-- The token loop of `_build_sparse_vector` keeps exactly the tokens with
`df ≠ 0`, a non-vanishing denominator and a positive weight, and emits the
pair `(_token_hash token, weight)` for each. -/
theorem buildFold_eq (tokens : List String) (doc_freq : String → ℕ)
    (avgdl : ℝ) (total_docs : ℕ) (L : List String) :
    L.foldr (buildStep tokens doc_freq avgdl total_docs) [] =
      (L.filter fun token =>
        decide (doc_freq token ≠ 0 ∧
          specDenom (tokens.count token) tokens.length avgdl ≠ 0 ∧
          0 < specWeight tokens doc_freq avgdl total_docs token)).map
        (fun token =>
          (_token_hash token,
            specWeight tokens doc_freq avgdl total_docs token)) := by
  induction L with
  | nil => rfl
  | cons a l ih =>
    rw [List.foldr_cons, ih, List.filter_cons]
    dsimp only [buildStep]
    simp only [bm25Denom_eq_specDenom, bm25Idf_eq_specIdf]
    have hw : specWeight tokens doc_freq avgdl total_docs a =
        specIdf total_docs (doc_freq a) *
          ((tokens.count a : ℝ) * (BM25_K1 + 1) /
            specDenom (tokens.count a) tokens.length avgdl) := rfl
    rw [← hw]
    by_cases h1 : doc_freq a = 0
    · simp [h1]
    by_cases h2 : specDenom (tokens.count a) tokens.length avgdl = 0
    · simp [h1, h2]
    by_cases h3 : specWeight tokens doc_freq avgdl total_docs a ≤ 0
    · have hnl : ¬ 0 < specWeight tokens doc_freq avgdl total_docs a :=
        not_lt.mpr h3
      simp [h1, h2, h3, hnl]
    · have hpos : 0 < specWeight tokens doc_freq avgdl total_docs a :=
        not_le.mp h3
      simp [h1, h2, h3, hpos]

/-- C5: an empty token list or a zero-size corpus yields an empty sparse
vector; otherwise the sparse vector holds, for each distinct document token
with `df ≠ 0`, non-vanishing denominator and positive weight, the pair
`(_token_hash token, idf * f*(k1+1)/denom)` with the spec's formulas. -/
theorem build_sparse_vector_spec (tokens : List String)
    (doc_freq : String → ℕ) (avgdl : ℝ) (total_docs : ℕ) :
    (tokens = [] ∨ total_docs = 0 →
      _build_sparse_vector tokens doc_freq avgdl total_docs = []) ∧
    (tokens ≠ [] → total_docs ≠ 0 →
      _build_sparse_vector tokens doc_freq avgdl total_docs =
        (tokens.dedup.filter fun token =>
          decide (doc_freq token ≠ 0 ∧
            specDenom (tokens.count token) tokens.length avgdl ≠ 0 ∧
            0 < specWeight tokens doc_freq avgdl total_docs token)).map
          (fun token =>
            (_token_hash token,
              specWeight tokens doc_freq avgdl total_docs token))) := by
  constructor
  · rintro (h | h)
    · subst h
      rfl
    · unfold _build_sparse_vector
      simp [h]
  · intro h1 h2
    unfold _build_sparse_vector
    rw [if_neg (by simp [h1, h2])]
    exact buildFold_eq tokens doc_freq avgdl total_docs tokens.dedup

/-- Witness for C5 on the one-token document `["s"]` in a corpus of one
document (`df("s") = 1`), `avgdl = 1`. -/
theorem build_sparse_vector_spec_witness :
    (["s"] : List String) ≠ [] ∧ (1 : ℕ) ≠ 0 ∧
    _build_sparse_vector ["s"] exDocFreq 1 1 =
      ((["s"] : List String).dedup.filter fun token =>
        decide (exDocFreq token ≠ 0 ∧
          specDenom ((["s"] : List String).count token)
            (["s"] : List String).length 1 ≠ 0 ∧
          0 < specWeight ["s"] exDocFreq 1 1 token)).map
        (fun token =>
          (_token_hash token, specWeight ["s"] exDocFreq 1 1 token)) :=
  ⟨by decide, by decide,
   (build_sparse_vector_spec ["s"] exDocFreq 1 1).2 (by decide) (by decide)⟩

/-! ### C6: the query-time BM25 score -/

/-- The query-token loop of `_bm25_score` accumulates exactly the spec's
per-term contributions. -/
theorem scoreFold_eq (doc_tokens : List String) (doc_freq : String → ℕ)
    (avgdl : ℝ) (total_docs : ℕ) (L : List String) (init : ℝ) :
    L.foldl (scoreStep doc_tokens doc_freq avgdl total_docs) init =
      init +
        (L.map (specTermScore doc_tokens doc_freq avgdl total_docs)).sum := by
  induction L generalizing init with
  | nil => simp
  | cons a l ih =>
    rw [List.foldl_cons, ih]
    dsimp only [scoreStep]
    simp only [bm25Denom_eq_specDenom, bm25Idf_eq_specIdf]
    unfold specTermScore
    by_cases h1 : doc_freq a = 0
    · simp [h1]
    by_cases h2 : doc_tokens.count a = 0
    · simp [h1, h2]
    by_cases h3 : specDenom (doc_tokens.count a) doc_tokens.length avgdl = 0
    · simp [h1, h2, h3]
    · rw [if_neg h1, if_neg h2, if_neg h3, List.map_cons, List.sum_cons,
        if_neg (by simp [h1, h2, h3] : ¬(doc_freq a = 0 ∨
          doc_tokens.count a = 0 ∨
          specDenom (doc_tokens.count a) doc_tokens.length avgdl = 0))]
      rw [BM25_K1_add_one]
      ring

/-- C6: a zero-size corpus always scores `0.0`; a record with an empty
token list never scores above `0.0`; query tokens absent from the corpus or
from the document contribute zero; otherwise the score is the sum, over the
distinct query tokens, of `idf(t) * freq_in_doc(t)*(k1+1)/denom`. -/
theorem bm25_score_spec (query_tokens : List String) (record : MemoryRecord)
    (doc_freq : String → ℕ) (avgdl : ℝ) (total_docs : ℕ) :
    (total_docs = 0 →
      _bm25_score query_tokens record doc_freq avgdl total_docs = 0) ∧
    (record.tokens = [] →
      _bm25_score query_tokens record doc_freq avgdl total_docs ≤ 0) ∧
    (∀ token, doc_freq token = 0 ∨ record.tokens.count token = 0 →
      specTermScore record.tokens doc_freq avgdl total_docs token = 0) ∧
    (record.tokens ≠ [] → total_docs ≠ 0 →
      _bm25_score query_tokens record doc_freq avgdl total_docs =
        (query_tokens.dedup.map
          (specTermScore record.tokens doc_freq avgdl total_docs)).sum) := by
  refine ⟨fun h => ?_, fun h => ?_, fun token h => ?_, fun h1 h2 => ?_⟩
  · unfold _bm25_score
    simp [h]
  · unfold _bm25_score
    simp [h]
  · unfold specTermScore
    rcases h with h | h
    · simp [h]
    · simp [h]
  · unfold _bm25_score
    rw [if_neg (by simp [h1, h2])]
    rw [scoreFold_eq]
    exact zero_add _

/-- Witness for C6 at a zero-size corpus and, separately, at the one-record
corpus `[exRecord]` (where `exRecord` has the single token `"s"`). -/
theorem bm25_score_spec_witness :
    _bm25_score ["s"] exRecord exDocFreq 1 0 = 0 ∧
    exRecord.tokens ≠ [] ∧ (1 : ℕ) ≠ 0 ∧
    _bm25_score ["s"] exRecord exDocFreq 1 1 =
      ((["s"] : List String).dedup.map
        (specTermScore exRecord.tokens exDocFreq 1 1)).sum :=
  ⟨(bm25_score_spec ["s"] exRecord exDocFreq 1 0).1 rfl, by decide, by decide,
   (bm25_score_spec ["s"] exRecord exDocFreq 1 1).2.2.2 (by decide)
     (by decide)⟩

/-! ### C4: extraction post-processing and the keyword invariant -/

/-- `sortedStrings` is a permutation of the deduplicated input. -/
theorem sortedStrings_perm (l : List String) :
    List.Perm (sortedStrings l) l.dedup :=
  List.perm_insertionSort _ _

/-- Every fact kept by `_extract_memories` has a non-empty stripped
statement, a non-empty, duplicate-free, sorted keyword list, and arises
from a response item by the post-processing cleaning. -/
theorem extract_mem_spec (text : String) (resp : List RawFact) :
    ∀ f ∈ _extract_memories text resp,
      f.fact ≠ "" ∧ f.keywords ≠ [] ∧ f.keywords.Nodup ∧
      List.Sorted (· ≤ ·) f.keywords ∧
      ∃ item ∈ resp, f.fact = pyStrip item.fact ∧
        f.keywords = sortedStrings
          ((item.keywords.filter fun kw => pyStrip kw ≠ "").map
            fun kw => (pyStrip kw).toLower) := by
  intro f hf
  unfold _extract_memories at hf
  by_cases ht : pyStrip text = ""
  · simp [ht] at hf
  rw [if_neg ht] at hf
  obtain ⟨item, hitem, hbody⟩ := List.mem_filterMap.mp hf
  dsimp only at hbody
  by_cases h1 : pyStrip item.fact = ""
  · rw [if_pos h1] at hbody
    exact absurd hbody (by simp)
  rw [if_neg h1] at hbody
  by_cases h2 : ((item.keywords.filter fun kw => pyStrip kw ≠ "").map
      fun kw => (pyStrip kw).toLower).isEmpty
  · rw [if_pos h2] at hbody
    exact absurd hbody (by simp)
  rw [if_neg h2] at hbody
  obtain rfl := (Option.some_inj.mp hbody).symm
  refine ⟨h1, ?_, ?_, ?_, item, hitem, rfl, rfl⟩
  · intro hnil
    dsimp only at hnil
    have hperm := sortedStrings_perm
      ((item.keywords.filter fun kw => pyStrip kw ≠ "").map
        fun kw => (pyStrip kw).toLower)
    rw [hnil] at hperm
    have := hperm.symm.eq_nil
    rw [List.dedup_eq_nil] at this
    rw [this] at h2
    simp at h2
  · exact (sortedStrings_perm _).symm.nodup (List.nodup_dedup _)
  · exact List.sorted_insertionSort _ _

/-- C4: every fact kept by extraction post-processing has a non-empty
trimmed statement and at least one keyword after trimming, lower-casing,
deduplication and sorting; and `save` never upserts a record with zero
keywords (the new records unconditionally, the re-upserted corpus provided
the fetched records satisfied the stored invariant). -/
theorem extraction_keyword_invariants (text : String) (resp : List RawFact)
    (embed : String → List ℝ) (llmFacts : String → List String → List RawFact)
    (newId : ℕ → String) (now : String) (existing : List MemoryRecord) :
    (∀ f ∈ _extract_memories text resp,
      f.fact ≠ "" ∧ f.keywords ≠ [] ∧ f.keywords.Nodup ∧
      List.Sorted (· ≤ ·) f.keywords) ∧
    ((∀ r ∈ existing, r.keywords ≠ []) →
      ∀ pts, (save embed llmFacts newId now existing text).upserted =
          some pts →
        ∀ p ∈ pts, p.keywords ≠ []) := by
  constructor
  · intro f hf
    obtain ⟨h1, h2, h3, h4, _⟩ := extract_mem_spec text resp f hf
    exact ⟨h1, h2, h3, h4⟩
  · intro hkw pts hup p hp
    unfold save at hup
    by_cases hext : (_extract_memories text
        (llmFacts text (sortedStrings (existing.flatMap (·.keywords))))).isEmpty
    · rw [if_pos hext] at hup
      simp at hup
    rw [if_neg hext] at hup
    dsimp only at hup
    obtain rfl := (Option.some_inj.mp hup).symm
    obtain ⟨r, hr, rfl⟩ := List.mem_map.mp hp
    rw [MemoryRecord.to_point]
    rcases List.mem_append.mp hr with hr | hr
    · exact hkw r hr
    · obtain ⟨x, hx, rfl⟩ := List.mem_map.mp hr
      obtain ⟨i, item⟩ := x
      have hitem : item ∈ _extract_memories text
          (llmFacts text (sortedStrings (existing.flatMap (·.keywords)))) := by
        have := List.mem_map_of_mem Prod.snd hx
        rwa [List.enum_map_snd] at this
      exact (extract_mem_spec _ _ item hitem).2.1

/-- Witness for C4 with one raw fact `{fact := " Tea ", keywords := ["B", "a", "b "]}`
and an empty fetched corpus. -/
theorem extraction_keyword_invariants_witness :
    (∀ f ∈ _extract_memories "note" [⟨" Tea ", ["B", "a", "b "]⟩],
      f.fact ≠ "" ∧ f.keywords ≠ [] ∧ f.keywords.Nodup ∧
      List.Sorted (· ≤ ·) f.keywords) ∧
    (∀ r ∈ ([] : List MemoryRecord), r.keywords ≠ []) ∧
    (∀ pts,
      (save (fun _ => [1]) (fun _ _ => [⟨" Tea ", ["B", "a", "b "]⟩])
          (fun _ => "id0") "now" [] "note").upserted = some pts →
      ∀ p ∈ pts, p.keywords ≠ []) :=
  ⟨(extraction_keyword_invariants "note" [⟨" Tea ", ["B", "a", "b "]⟩]
      (fun _ => [1]) (fun _ _ => [⟨" Tea ", ["B", "a", "b "]⟩])
      (fun _ => "id0") "now" []).1,
   by simp,
   (extraction_keyword_invariants "note" [⟨" Tea ", ["B", "a", "b "]⟩]
      (fun _ => [1]) (fun _ _ => [⟨" Tea ", ["B", "a", "b "]⟩])
      (fun _ => "id0") "now" []).2 (by simp)⟩

/-! ### C8: score fusion and min-max normalization -/

/-- A `min`-fold is bounded by its seed. -/
theorem foldl_min_le_seed (vs : List ℝ) (v : ℝ) : vs.foldl min v ≤ v := by
  induction vs generalizing v with
  | nil => exact le_refl v
  | cons w ws ih =>
    rw [List.foldl_cons]
    exact le_trans (ih (min v w)) (min_le_left _ _)

/-- A `max`-fold is bounded below by its seed. -/
theorem le_foldl_max_seed (vs : List ℝ) (v : ℝ) : v ≤ vs.foldl max v := by
  induction vs generalizing v with
  | nil => exact le_refl v
  | cons w ws ih =>
    rw [List.foldl_cons]
    exact le_trans (le_max_left _ _) (ih (max v w))

/-- `min`-fold lower bound: the Python `min(values)` is `≤` every member. -/
theorem foldl_min_le {vs : List ℝ} {v x : ℝ} (h : x ∈ v :: vs) :
    vs.foldl min v ≤ x := by
  induction vs generalizing v with
  | nil =>
    rw [List.mem_singleton] at h
    exact le_of_eq h.symm
  | cons w ws ih =>
    rw [List.foldl_cons]
    rcases List.mem_cons.mp h with rfl | h'
    · exact le_trans (foldl_min_le_seed ws (min x w)) (min_le_left _ _)
    · rcases List.mem_cons.mp h' with rfl | h''
      · exact le_trans (foldl_min_le_seed ws (min v x)) (min_le_right _ _)
      · exact ih (List.mem_cons_of_mem _ h'')

/-- `max`-fold upper bound: the Python `max(values)` is `≥` every member. -/
theorem le_foldl_max {vs : List ℝ} {v x : ℝ} (h : x ∈ v :: vs) :
    x ≤ vs.foldl max v := by
  induction vs generalizing v with
  | nil =>
    rw [List.mem_singleton] at h
    exact le_of_eq h
  | cons w ws ih =>
    rw [List.foldl_cons]
    rcases List.mem_cons.mp h with rfl | h'
    · exact le_trans (le_max_left _ _) (le_foldl_max_seed ws (max x w))
    · rcases List.mem_cons.mp h' with rfl | h''
      · exact le_trans (le_max_right _ _) (le_foldl_max_seed ws (max v x))
      · exact ih (List.mem_cons_of_mem _ h'')

/-- A `min`-fold over a constant list is the seed. -/
theorem foldl_min_all_eq {vs : List ℝ} {v : ℝ} (h : ∀ x ∈ vs, x = v) :
    vs.foldl min v = v := by
  induction vs with
  | nil => rfl
  | cons w ws ih =>
    rw [List.foldl_cons, h w (List.mem_cons_self _ _), min_self]
    exact ih fun x hx => h x (List.mem_cons_of_mem _ hx)

/-- A `max`-fold over a constant list is the seed. -/
theorem foldl_max_all_eq {vs : List ℝ} {v : ℝ} (h : ∀ x ∈ vs, x = v) :
    vs.foldl max v = v := by
  induction vs with
  | nil => rfl
  | cons w ws ih =>
    rw [List.foldl_cons, h w (List.mem_cons_self _ _), max_self]
    exact ih fun x hx => h x (List.mem_cons_of_mem _ hx)

/-- `_normalize` maps members of a non-empty value list into `[0, 1]`. -/
theorem normalize_mem_bounds {values : List ℝ} {x : ℝ} (hx : x ∈ values) :
    0 ≤ _normalize values x ∧ _normalize values x ≤ 1 := by
  match values with
  | v :: vs =>
    unfold _normalize
    dsimp only
    by_cases h : vs.foldl max v = vs.foldl min v
    · rw [if_pos h]
      norm_num
    · rw [if_neg h]
      have hmin : vs.foldl min v ≤ x := foldl_min_le hx
      have hmax : x ≤ vs.foldl max v := le_foldl_max hx
      have hle : vs.foldl min v ≤ vs.foldl max v :=
        le_trans (foldl_min_le (List.mem_cons_self _ _))
          (le_foldl_max (List.mem_cons_self _ _))
      have hlt : vs.foldl min v < vs.foldl max v :=
        lt_of_le_of_ne hle (fun e => h e.symm)
      constructor
      · exact div_nonneg (by linarith) (by linarith)
      · rw [div_le_one (by linarith)]
        linarith

/-- `_normalize` over a constant value list is exactly `0.5`. -/
theorem normalize_all_eq {values : List ℝ} {d : ℝ} (hne : values ≠ [])
    (hall : ∀ y ∈ values, y = d) (x : ℝ) : _normalize values x = 0.5 := by
  match values with
  | v :: vs =>
    unfold _normalize
    dsimp only
    have hv : v = d := hall v (List.mem_cons_self _ _)
    have hmin : vs.foldl min v = v :=
      foldl_min_all_eq fun y hy =>
        ((hall y (List.mem_cons_of_mem _ hy)).trans hv.symm)
    have hmax : vs.foldl max v = v :=
      foldl_max_all_eq fun y hy =>
        ((hall y (List.mem_cons_of_mem _ hy)).trans hv.symm)
    rw [if_pos (by rw [hmin, hmax])]

/-- C8: over a non-empty candidate set, each candidate's normalized dense
and BM25 scores lie in `[0,1]`; a degenerate channel (all dense scores
equal, or all BM25 scores equal) normalizes to exactly `0.5` for every
candidate; each fused score is `0.6*dense_norm + 0.4*bm25_norm`; and the
ranking step orders the scored candidates by descending fused score (it is
a sorted permutation of them). -/
theorem fusion_spec (candidates : List Candidate) (h : candidates ≠ []) :
    (∀ c ∈ candidates,
      (0 ≤ _normalize (candidates.map (·.dense_score)) c.dense_score ∧
        _normalize (candidates.map (·.dense_score)) c.dense_score ≤ 1) ∧
      (0 ≤ _normalize (candidates.map (·.bm25_score)) c.bm25_score ∧
        _normalize (candidates.map (·.bm25_score)) c.bm25_score ≤ 1)) ∧
    (∀ d, (∀ c ∈ candidates, c.dense_score = d) →
      ∀ c ∈ candidates,
        _normalize (candidates.map (·.dense_score)) c.dense_score = 0.5) ∧
    (∀ b, (∀ c ∈ candidates, c.bm25_score = b) →
      ∀ c ∈ candidates,
        _normalize (candidates.map (·.bm25_score)) c.bm25_score = 0.5) ∧
    (∀ p ∈ scoreCandidates candidates,
      p.2 = 0.6 * _normalize (candidates.map (·.dense_score))
          p.1.dense_score +
        0.4 * _normalize (candidates.map (·.bm25_score)) p.1.bm25_score) ∧
    List.Sorted scoreGE (rankCandidates (scoreCandidates candidates)) ∧
    List.Perm (rankCandidates (scoreCandidates candidates))
      (scoreCandidates candidates) := by
  refine ⟨fun c hc => ?_, fun d hd c hc => ?_, fun b hb c hc => ?_,
    fun p hp => ?_, ?_, ?_⟩
  · exact ⟨normalize_mem_bounds (List.mem_map_of_mem _ hc),
      normalize_mem_bounds (List.mem_map_of_mem _ hc)⟩
  · refine normalize_all_eq (d := d) (by simp [h]) ?_ _
    intro y hy
    obtain ⟨c', hc', rfl⟩ := List.mem_map.mp hy
    exact hd c' hc'
  · refine normalize_all_eq (d := b) (by simp [h]) ?_ _
    intro y hy
    obtain ⟨c', hc', rfl⟩ := List.mem_map.mp hy
    exact hb c' hc'
  · unfold scoreCandidates at hp
    obtain ⟨c', _, rfl⟩ := List.mem_map.mp hp
    rfl
  · exact List.sorted_insertionSort _ _
  · exact List.perm_insertionSort _ _

/-- Witness for C8 on the one-candidate set `[candA]`. -/
theorem fusion_spec_witness :
    (∀ c ∈ [candA],
      (0 ≤ _normalize ([candA].map (·.dense_score)) c.dense_score ∧
        _normalize ([candA].map (·.dense_score)) c.dense_score ≤ 1) ∧
      (0 ≤ _normalize ([candA].map (·.bm25_score)) c.bm25_score ∧
        _normalize ([candA].map (·.bm25_score)) c.bm25_score ≤ 1)) ∧
    (∀ d, (∀ c ∈ [candA], c.dense_score = d) →
      ∀ c ∈ [candA],
        _normalize ([candA].map (·.dense_score)) c.dense_score = 0.5) ∧
    (∀ b, (∀ c ∈ [candA], c.bm25_score = b) →
      ∀ c ∈ [candA],
        _normalize ([candA].map (·.bm25_score)) c.bm25_score = 0.5) ∧
    (∀ p ∈ scoreCandidates [candA],
      p.2 = 0.6 * _normalize ([candA].map (·.dense_score))
          p.1.dense_score +
        0.4 * _normalize ([candA].map (·.bm25_score)) p.1.bm25_score) ∧
    List.Sorted scoreGE (rankCandidates (scoreCandidates [candA])) ∧
    List.Perm (rankCandidates (scoreCandidates [candA]))
      (scoreCandidates [candA]) :=
  fusion_spec [candA] (by simp)

/-! ### C1: the save round-trip invariant -/

/-- Re-parsing a point written by `to_point` as `_fetch_existing` does
recovers the record exactly, provided the record satisfies the fetched
invariant (non-empty fact and timestamp; empty token lists only for facts
that tokenize to nothing). -/
theorem pointToRecord_to_point (now' : String) (r : MemoryRecord)
    (sv : List (ℕ × ℝ)) (hf : r.fact ≠ "")
    (ht : r.tokens = [] → _tokenize r.fact = []) (hc : r.created_at ≠ "") :
    pointToRecord now' (r.to_point sv) = some r := by
  cases r with
  | mk id fact keywords dense tokens source created =>
    dsimp only at hf ht hc
    unfold pointToRecord MemoryRecord.to_point
    dsimp only
    rw [if_neg hf, if_neg hc]
    by_cases htok : tokens.isEmpty
    · obtain rfl := List.isEmpty_iff.mp htok
      rw [if_pos htok, ht rfl]
    · rw [if_neg htok]

/-- A `filterMap` whose function is `some` on every member is the
identity. -/
theorem filterMap_eq_self {α : Type} {g : α → Option α} {l : List α}
    (h : ∀ a ∈ l, g a = some a) : l.filterMap g = l := by
  induction l with
  | nil => rfl
  | cons a l ih =>
    rw [List.filterMap_cons, h a (List.mem_cons_self _ _)]
    rw [ih fun a ha => h a (List.mem_cons_of_mem _ ha)]

/-- The round-trip property over an arbitrary combined corpus that
satisfies the fetched-record invariant: the upserted points re-parse to the
corpus itself, cover it, and rebuilding each point's sparse vector from
statistics recomputed over the re-parsed corpus reproduces its stored
sparse weights. -/
theorem roundtrip_core (now' : String) (all : List MemoryRecord)
    (hall : ∀ r ∈ all, r.fact ≠ "" ∧
      (r.tokens = [] → _tokenize r.fact = []) ∧ r.created_at ≠ "") :
    ((all.map fun r => r.to_point
        (_build_sparse_vector r.tokens (_collect_stats all).1
          (_collect_stats all).2.1 (_collect_stats all).2.2)).filterMap
      (pointToRecord now') = all) ∧
    (∀ r ∈ all, ∃ p ∈ all.map fun r => r.to_point
        (_build_sparse_vector r.tokens (_collect_stats all).1
          (_collect_stats all).2.1 (_collect_stats all).2.2),
      p.id = r.id) ∧
    (∀ p ∈ all.map fun r => r.to_point
        (_build_sparse_vector r.tokens (_collect_stats all).1
          (_collect_stats all).2.1 (_collect_stats all).2.2),
      _build_sparse_vector p.tokens
        (_collect_stats ((all.map fun r => r.to_point
          (_build_sparse_vector r.tokens (_collect_stats all).1
            (_collect_stats all).2.1 (_collect_stats all).2.2)).filterMap
          (pointToRecord now'))).1
        (_collect_stats ((all.map fun r => r.to_point
          (_build_sparse_vector r.tokens (_collect_stats all).1
            (_collect_stats all).2.1 (_collect_stats all).2.2)).filterMap
          (pointToRecord now'))).2.1
        (_collect_stats ((all.map fun r => r.to_point
          (_build_sparse_vector r.tokens (_collect_stats all).1
            (_collect_stats all).2.1 (_collect_stats all).2.2)).filterMap
          (pointToRecord now'))).2.2 = p.sparse) := by
  have hid : (all.map fun r => r.to_point
      (_build_sparse_vector r.tokens (_collect_stats all).1
        (_collect_stats all).2.1 (_collect_stats all).2.2)).filterMap
      (pointToRecord now') = all := by
    rw [List.filterMap_map]
    exact filterMap_eq_self fun r hr =>
      pointToRecord_to_point now' r _ (hall r hr).1 (hall r hr).2.1
        (hall r hr).2.2
  refine ⟨hid, fun r hr => ⟨r.to_point _, List.mem_map_of_mem _ hr, rfl⟩,
    fun p hp => ?_⟩
  rw [hid]
  obtain ⟨r, hr, rfl⟩ := List.mem_map.mp hp
  rfl

/-- C1: when extraction yields at least one fact, `save` upserts a point
set that covers every record of the combined corpus (fetched existing plus
new); the stored points re-parse to exactly that corpus, and rebuilding
each point's sparse vector from scratch out of statistics recomputed over
the stored corpus reproduces exactly the sparse weights that were
upserted. -/
theorem save_roundtrip (embed : String → List ℝ)
    (llmFacts : String → List String → List RawFact) (newId : ℕ → String)
    (now now' text : String) (existing : List MemoryRecord)
    (hinv : ∀ r ∈ existing, r.fact ≠ "" ∧
      (r.tokens = [] → _tokenize r.fact = []) ∧ r.created_at ≠ "")
    (hnow : now ≠ "")
    (hext : _extract_memories text
      (llmFacts text (sortedStrings (existing.flatMap (·.keywords)))) ≠ []) :
    ∃ pts, (save embed llmFacts newId now existing text).upserted =
        some pts ∧
      (∃ newRecs,
        (save embed llmFacts newId now existing text).corpus =
          existing ++ newRecs) ∧
      pts.filterMap (pointToRecord now') =
        (save embed llmFacts newId now existing text).corpus ∧
      (∀ r ∈ (save embed llmFacts newId now existing text).corpus,
        ∃ p ∈ pts, p.id = r.id) ∧
      (∀ p ∈ pts,
        _build_sparse_vector p.tokens
          (_collect_stats (pts.filterMap (pointToRecord now'))).1
          (_collect_stats (pts.filterMap (pointToRecord now'))).2.1
          (_collect_stats (pts.filterMap (pointToRecord now'))).2.2 =
          p.sparse) := by
  have hne : ¬(_extract_memories text
      (llmFacts text (sortedStrings (existing.flatMap (·.keywords))))).isEmpty := by
    simpa using hext
  unfold save
  rw [if_neg hne]
  dsimp only
  have hall : ∀ r ∈ existing ++
      (List.map (fun x =>
        ({ id := newId x.1, fact := x.2.fact, keywords := x.2.keywords
           dense_vector := embed x.2.fact, tokens := _tokenize x.2.fact
           source_text := some text, created_at := now } : MemoryRecord))
        (_extract_memories text
          (llmFacts text
            (sortedStrings (existing.flatMap (·.keywords))))).enum),
      r.fact ≠ "" ∧ (r.tokens = [] → _tokenize r.fact = []) ∧
        r.created_at ≠ "" := by
    intro r hr
    rcases List.mem_append.mp hr with hr | hr
    · exact hinv r hr
    · obtain ⟨x, hx, rfl⟩ := List.mem_map.mp hr
      have hitem : x.2 ∈ _extract_memories text
          (llmFacts text (sortedStrings (existing.flatMap (·.keywords)))) := by
        have := List.mem_map_of_mem Prod.snd hx
        rwa [List.enum_map_snd] at this
      exact ⟨(extract_mem_spec _ _ x.2 hitem).1, fun h => h, hnow⟩
  have hcore := roundtrip_core now' _ hall
  exact ⟨_, rfl, ⟨_, rfl⟩, hcore.1, hcore.2.1, hcore.2.2⟩

/-- Witness for C1: empty fetched corpus, one extracted fact. -/
theorem save_roundtrip_witness :
    ∃ pts,
      (save (fun _ => [1]) (fun _ _ => [⟨"Tea", ["k"]⟩]) (fun _ => "id0")
          "T" [] "note").upserted = some pts ∧
      (∃ newRecs,
        (save (fun _ => [1]) (fun _ _ => [⟨"Tea", ["k"]⟩]) (fun _ => "id0")
            "T" [] "note").corpus = [] ++ newRecs) ∧
      pts.filterMap (pointToRecord "T2") =
        (save (fun _ => [1]) (fun _ _ => [⟨"Tea", ["k"]⟩]) (fun _ => "id0")
            "T" [] "note").corpus ∧
      (∀ r ∈ (save (fun _ => [1]) (fun _ _ => [⟨"Tea", ["k"]⟩])
            (fun _ => "id0") "T" [] "note").corpus,
        ∃ p ∈ pts, p.id = r.id) ∧
      (∀ p ∈ pts,
        _build_sparse_vector p.tokens
          (_collect_stats (pts.filterMap (pointToRecord "T2"))).1
          (_collect_stats (pts.filterMap (pointToRecord "T2"))).2.1
          (_collect_stats (pts.filterMap (pointToRecord "T2"))).2.2 =
          p.sparse) :=
  save_roundtrip (fun _ => [1]) (fun _ _ => [⟨"Tea", ["k"]⟩])
    (fun _ => "id0") "T" "T2" "note" [] (by simp) (by decide) (by decide)

/-! ### C7: BM25 monotonicity in a term's document frequency -/

/-- Positivity of the BM25 denominator for a token present in the
document, given a non-negative average document length. -/
theorem specDenom_pos {f dl : ℕ} {avgdl : ℝ} (hf : 1 ≤ f)
    (havg : 0 ≤ avgdl) : 0 < specDenom f dl avgdl := by
  unfold specDenom
  have h1 : (1 : ℝ) ≤ (f : ℝ) := by exact_mod_cast hf
  have h2 : 0 ≤ (dl : ℝ) / avgdl :=
    div_nonneg (Nat.cast_nonneg dl) havg
  nlinarith

/-- Non-negativity of the idf when the document frequency does not exceed
the corpus size. -/
theorem specIdf_nonneg {total_docs df : ℕ} (h : df ≤ total_docs) :
    0 ≤ specIdf total_docs df := by
  unfold specIdf
  apply Real.log_nonneg
  have h1 : (0 : ℝ) ≤ (total_docs : ℝ) - (df : ℝ) := by
    have : (df : ℝ) ≤ (total_docs : ℝ) := by exact_mod_cast h
    linarith
  have h2 : (0 : ℝ) < (df : ℝ) + 0.5 := by positivity
  have := div_nonneg (by linarith : (0 : ℝ) ≤ (total_docs : ℝ) - df + 0.5)
    h2.le
  linarith

/-- The one-term BM25 contribution is monotone in the term's in-document
frequency, even as the document grows by the added occurrences. -/
theorem specTermScore_append_mono (t : String) (doc_freq : String → ℕ)
    (avgdl : ℝ) (total_docs : ℕ) (tokens : List String) (k : ℕ)
    (hd : t ∈ tokens) (hdf : doc_freq t ≤ total_docs) (havg : 0 ≤ avgdl) :
    specTermScore tokens doc_freq avgdl total_docs t ≤
      specTermScore (tokens ++ List.replicate k t) doc_freq avgdl total_docs
        t := by
  have hf1 : 1 ≤ tokens.count t := List.count_pos_iff.mpr hd
  have hfdl : tokens.count t ≤ tokens.length := List.count_le_length _ _
  have hcount : (tokens ++ List.replicate k t).count t = tokens.count t + k := by
    simp [List.count_append, List.count_replicate]
  have hlen : (tokens ++ List.replicate k t).length = tokens.length + k := by
    simp
  unfold specTermScore
  rw [hcount, hlen]
  by_cases hdf0 : doc_freq t = 0
  · simp [hdf0]
  have hd1 : 0 < specDenom (tokens.count t) tokens.length avgdl :=
    specDenom_pos hf1 havg
  have hd2 : 0 < specDenom (tokens.count t + k) (tokens.length + k) avgdl :=
    specDenom_pos (le_trans hf1 (Nat.le_add_right _ _)) havg
  rw [if_neg (by push_neg; exact ⟨hdf0, by omega, hd1.ne'⟩),
    if_neg (by push_neg; exact ⟨hdf0, by omega, hd2.ne'⟩)]
  apply mul_le_mul_of_nonneg_left ?_ (specIdf_nonneg hdf)
  rw [div_le_div_iff hd1 hd2]
  unfold specDenom
  push_cast
  have hF : (1 : ℝ) ≤ (tokens.count t : ℝ) := by exact_mod_cast hf1
  have hFDL : ((tokens.count t : ℕ) : ℝ) ≤ (tokens.length : ℝ) := by
    exact_mod_cast hfdl
  have hK : (0 : ℝ) ≤ (k : ℝ) := Nat.cast_nonneg k
  set F := (tokens.count t : ℝ)
  set DL := (tokens.length : ℝ)
  set K := (k : ℝ)
  by_cases haz : avgdl = 0
  · subst haz
    simp only [div_zero]
    nlinarith
  · have hpos : 0 < avgdl := lt_of_le_of_ne havg (Ne.symm haz)
    rw [← sub_nonneg]
    have key : (F + K) * (1.5 + 1) *
          (F + 1.5 * (1 - 0.75 + 0.75 * (DL / avgdl))) -
        F * (1.5 + 1) *
          ((F + K) + 1.5 * (1 - 0.75 + 0.75 * ((DL + K) / avgdl))) =
        2.5 * (0.375 * K + 1.125 * ((K * DL - F * K) / avgdl)) := by
      field_simp
      ring
    rw [key]
    have hnum : 0 ≤ (K * DL - F * K) / avgdl :=
      div_nonneg (by nlinarith) hpos.le
    linarith

/-- C7 (amended): for a query containing `t` and a record containing `t`
in which no *other* query token occurs, with consistent statistics
(`df(t) ≤ N`, `avgdl ≥ 0`), increasing `t`'s frequency in the record's
token multiset (appending `k` further occurrences) never decreases the
record's BM25 score against that query. -/
theorem bm25_monotone_single_matching_term (query_tokens : List String)
    (t : String) (doc_freq : String → ℕ) (avgdl : ℝ) (total_docs : ℕ)
    (r : MemoryRecord) (k : ℕ) (hq : t ∈ query_tokens) (hd : t ∈ r.tokens)
    (hdf : doc_freq t ≤ total_docs) (havg : 0 ≤ avgdl)
    (hother : ∀ s ∈ query_tokens, s ≠ t → s ∉ r.tokens) :
    _bm25_score query_tokens r doc_freq avgdl total_docs ≤
      _bm25_score query_tokens
        { r with tokens := r.tokens ++ List.replicate k t } doc_freq avgdl
        total_docs := by
  by_cases hN : total_docs = 0
  · unfold _bm25_score
    simp [hN]
  have hne : ¬r.tokens.isEmpty := by
    rw [List.isEmpty_iff]
    intro h
    rw [h] at hd
    exact absurd hd (List.not_mem_nil t)
  have hne' : ¬(r.tokens ++ List.replicate k t).isEmpty := by
    simp only [List.isEmpty_iff] at hne ⊢
    simp [hne]
  unfold _bm25_score
  dsimp only
  rw [if_neg (by simp [hne, hN]), if_neg (by simp [hne', hN])]
  rw [scoreFold_eq, scoreFold_eq, zero_add, zero_add]
  apply List.sum_le_sum
  intro u hu
  by_cases hut : u = t
  · subst hut
    exact specTermScore_append_mono u doc_freq avgdl total_docs r.tokens k
      hd hdf havg
  · have hnotin : u ∉ r.tokens := hother u (List.mem_dedup.mp hu) hut
    have hc1 : r.tokens.count u = 0 := List.count_eq_zero.mpr hnotin
    have hc2 : (r.tokens ++ List.replicate k t).count u = 0 := by
      rw [List.count_append, hc1, List.count_replicate]
      simp only [beq_iff_eq]
      rw [if_neg (fun h => hut h.symm)]
    unfold specTermScore
    rw [hc1, hc2]
    simp

/-- Witness for the amended C7: a single-token query `["t"]` against
`exRecordBefore`, appending one further `"t"`. -/
theorem bm25_monotone_single_matching_term_witness :
    "t" ∈ (["t"] : List String) ∧ "t" ∈ exRecordBefore.tokens ∧
    exDocFreq "t" ≤ 10 ∧ (0 : ℝ) ≤ 5 ∧
    _bm25_score ["t"] exRecordBefore exDocFreq 5 10 ≤
      _bm25_score ["t"]
        { exRecordBefore with
            tokens := exRecordBefore.tokens ++ List.replicate 1 "t" }
        exDocFreq 5 10 :=
  ⟨by decide, by decide, by decide, by norm_num,
   bm25_monotone_single_matching_term ["t"] "t" exDocFreq 5 10
     exRecordBefore 1 (by decide) (by decide) (by decide) (by norm_num)
     (by
       intro s hs hne
       rw [List.mem_singleton] at hs
       exact absurd hs hne)⟩

/-- C7 counterexample: under the fixed statistics `df("t") = 10`,
`df("s") = 1`, `avgdl = 5`, `N = 10`, adding one occurrence of the query
term `"t"` to the record `exRecordBefore` (which contains `"t"` once and
`"s"` five times) *strictly decreases* its BM25 score against the query
`["t", "s"]`: the longer document depresses the high-idf `"s"`
contribution more than the extra low-idf `"t"` occurrence adds. -/
theorem bm25_monotonicity_counterexample :
    _bm25_score ["t", "s"] exRecordAfter exDocFreq 5 10 <
      _bm25_score ["t", "s"] exRecordBefore exDocFreq 5 10 := by
  have hded : (["t", "s"] : List String).dedup = ["t", "s"] := by decide
  have hb : _bm25_score ["t", "s"] exRecordBefore exDocFreq 5 10 =
      Real.log (22 / 21) * (100 / 109) + Real.log (22 / 3) * (500 / 269) := by
    unfold _bm25_score
    rw [if_neg (by decide)]
    rw [scoreFold_eq, zero_add, hded]
    simp only [List.map_cons, List.map_nil, List.sum_cons, List.sum_nil,
      add_zero]
    unfold specTermScore
    rw [show exRecordBefore.tokens = ["s", "s", "s", "s", "s", "t"] from rfl]
    rw [show (["s", "s", "s", "s", "s", "t"] : List String).count "t" = 1
        from by decide,
      show (["s", "s", "s", "s", "s", "t"] : List String).count "s" = 5
        from by decide,
      show (["s", "s", "s", "s", "s", "t"] : List String).length = 6
        from rfl,
      show exDocFreq "t" = 10 from rfl, show exDocFreq "s" = 1 from rfl]
    rw [if_neg (show ¬((10 : ℕ) = 0 ∨ (1 : ℕ) = 0 ∨
          specDenom 1 6 5 = 0) from by norm_num [specDenom]),
      if_neg (show ¬((1 : ℕ) = 0 ∨ (5 : ℕ) = 0 ∨
          specDenom 5 6 5 = 0) from by norm_num [specDenom])]
    rw [show specDenom 1 6 5 = (109 : ℝ) / 40 from by norm_num [specDenom],
      show specDenom 5 6 5 = (269 : ℝ) / 40 from by norm_num [specDenom],
      show specIdf 10 10 = Real.log (22 / 21) from by norm_num [specIdf],
      show specIdf 10 1 = Real.log (22 / 3) from by norm_num [specIdf]]
    norm_num
  have ha : _bm25_score ["t", "s"] exRecordAfter exDocFreq 5 10 =
      Real.log (22 / 21) * (100 / 79) + Real.log (22 / 3) * (250 / 139) := by
    unfold _bm25_score
    rw [if_neg (by decide)]
    rw [scoreFold_eq, zero_add, hded]
    simp only [List.map_cons, List.map_nil, List.sum_cons, List.sum_nil,
      add_zero]
    unfold specTermScore
    rw [show exRecordAfter.tokens = ["s", "s", "s", "s", "s", "t", "t"]
        from rfl]
    rw [show (["s", "s", "s", "s", "s", "t", "t"] : List String).count "t" = 2
        from by decide,
      show (["s", "s", "s", "s", "s", "t", "t"] : List String).count "s" = 5
        from by decide,
      show (["s", "s", "s", "s", "s", "t", "t"] : List String).length = 7
        from rfl,
      show exDocFreq "t" = 10 from rfl, show exDocFreq "s" = 1 from rfl]
    rw [if_neg (show ¬((10 : ℕ) = 0 ∨ (2 : ℕ) = 0 ∨
          specDenom 2 7 5 = 0) from by norm_num [specDenom]),
      if_neg (show ¬((1 : ℕ) = 0 ∨ (5 : ℕ) = 0 ∨
          specDenom 5 7 5 = 0) from by norm_num [specDenom])]
    rw [show specDenom 2 7 5 = (79 : ℝ) / 20 from by norm_num [specDenom],
      show specDenom 5 7 5 = (139 : ℝ) / 20 from by norm_num [specDenom],
      show specIdf 10 10 = Real.log (22 / 21) from by norm_num [specIdf],
      show specIdf 10 1 = Real.log (22 / 3) from by norm_num [specIdf]]
    norm_num
  rw [ha, hb]
  have hA : Real.log (22 / 21) ≤ 1 / 21 := by
    have := Real.log_le_sub_one_of_pos (show (0 : ℝ) < 22 / 21 by norm_num)
    linarith
  have hBinv : Real.log ((3 : ℝ) / 22) = -Real.log (22 / 3) := by
    rw [show (3 : ℝ) / 22 = (22 / 3)⁻¹ by norm_num, Real.log_inv]
  have hB : (19 : ℝ) / 22 ≤ Real.log (22 / 3) := by
    have := Real.log_le_sub_one_of_pos (show (0 : ℝ) < 3 / 22 by norm_num)
    rw [hBinv] at this
    linarith
  linarith

end MemoryAgent
